import Mathlib

/-!
Verification of the PDIR (directory record) component of the pogo GGPK
filesystem: the record decoder `newPdirNode`, the hash-indexed child
resolver `ChildNamed`, the eager child lister `Children`, and the
`fs.ReadDirFile` adapter `fsPdirNode` with its paging `ReadDir` and
synthetic `Stat` metadata.

Bytes are modelled as `Nat` (each < 256), buffers as `List Nat`, machine
integers as `Nat`/`Int` with explicit wrap-around where the code relies
on it.  Fallible operations return `Except`.  External collaborators
(the backing `io.ReaderAt`, `getNodeAt`, the length-prefixed UTF-16
string decoder `readStringFrom`, `sizeofChars`, and Unicode lowercasing)
are fields of the environment record `GgpkFS`.
-/

namespace Pogo

/-- Truncation to 32 bits, `uint32` arithmetic. -/
def mask32 (x : Nat) : Nat := x % 4294967296

/-- The MurmurHash2 multiplicative constant `M = 0x5bd1e995`. -/
def m32 : Nat := 0x5bd1e995

/-- Tail step of MurmurHash2: the `switch len(data)` with fallthrough
over the final 0–3 bytes. -/
def murmurTail (h : Nat) : List Nat → Nat
  | [] => h
  | [a] => mask32 ((h ^^^ a) * m32)
  | [a, b] => mask32 ((h ^^^ (b <<< 8) ^^^ a) * m32)
  | a :: b :: c :: _ => mask32 ((h ^^^ (c <<< 16) ^^^ (b <<< 8) ^^^ a) * m32)

/-- Main 4-byte-block loop of MurmurHash2 (little-endian block load,
`k *= M; k ^= k >> 24; k *= M; h *= M; h ^= k`). -/
def murmurLoop (h : Nat) : List Nat → Nat
  | a :: b :: c :: d :: rest =>
    let k := mask32 ((a ||| (b <<< 8) ||| (c <<< 16) ||| (d <<< 24)) * m32)
    let k := k ^^^ (k >>> 24)
    let k := mask32 (k * m32)
    murmurLoop (mask32 (h * m32) ^^^ k) rest
  | rest => murmurTail h rest

/-- `murmur.MurmurHash2(data, seed)`: 32-bit MurmurHash2 as used by
`pdirNode.ChildNamed` (external package `github.com/aviddiviner/go-murmur`,
the canonical Appleby MurmurHash2). -/
def murmur2 (data : List Nat) (seed : Nat) : Nat :=
  let h := murmurLoop (mask32 seed ^^^ mask32 data.length) data
  let h := h ^^^ (h >>> 13)
  let h := mask32 (h * m32)
  h ^^^ (h >>> 15)

/-- UTF-16 code units of one Unicode scalar value (`utf16.Encode` on a
single rune): one unit below U+10000, otherwise a surrogate pair. -/
def utf16Units (c : Nat) : List Nat :=
  if c < 65536 then [c]
  else [55296 + (c - 65536) / 1024, 56320 + (c - 65536) % 1024]

/-- Little-endian byte serialization of UTF-16 code units of a rune
sequence: `utf16.Encode` followed by per-unit `binary.Write` with
`binary.LittleEndian`, as in `pdirNode.ChildNamed`. -/
def utf16leBytes (cs : List Nat) : List Nat :=
  (cs.flatMap utf16Units).flatMap (fun u => [u % 256, u / 256 % 256])

/-- Byte at index `i` of a buffer (0 when out of range; all uses are
guarded by length checks in the code). -/
def byteAt (data : List Nat) (i : Nat) : Nat := data.getD i 0

/-- `binary.LittleEndian.Uint32(data[i:])`. -/
def le32 (data : List Nat) (i : Nat) : Nat :=
  byteAt data i + byteAt data (i + 1) * 256
    + byteAt data (i + 2) * 65536 + byteAt data (i + 3) * 16777216

/-- Little-endian 64-bit load at index `i`. -/
def le64 (data : List Nat) (i : Nat) : Nat :=
  le32 data i + le32 data (i + 4) * 4294967296

/-- Reinterpret a 64-bit unsigned value as Go's signed `int64`. -/
def toInt64 (n : Nat) : Int :=
  if n < 9223372036854775808 then (n : Int) else (n : Int) - 18446744073709551616

/-- Error values produced by this component.  `nodeTooShort` is
`errNodeTooShort`, `notFile` is `errNotFile`, `notExist` is
`fs.ErrNotExist`; `ioError`, `nameError` and `childError` are the
wrapped `fmt.Errorf` failures of `newPdirNode` (underlying causes kept
as opaque numbers). -/
inductive GError where
  | nodeTooShort : GError
  | notFile : GError
  | notExist : GError
  | ioError (cause : Nat) : GError
  | nameError (cause : Nat) : GError
  | childError (index : Nat) : GError
deriving DecidableEq, Repr

/-- `pdirChild`: a (hash, offset) child reference. -/
structure PdirChild where
  offset : Int
  hash : Nat
deriving DecidableEq, Repr

/-- `pdirNode` minus its back-reference `src` (the environment `GgpkFS`
is passed explicitly instead). -/
structure PdirNode where
  name : String
  signature : List Nat
  children : List PdirChild
deriving DecidableEq, Repr

/-- `anyNode`: a resolved node is a directory or a leaf file.  The leaf
variant is modelled from the spec (the leaf parser is an external
collaborator); only its name is relevant here. -/
inductive AnyNode where
  | pdir (node : PdirNode)
  | file (name : String)
deriving DecidableEq, Repr

/-- `anyNode.Name()`. -/
def AnyNode.name : AnyNode → String
  | .pdir n => n.name
  | .file s => s

/-- `ggpkFS`: the environment of external collaborators.  `file` is the
backing `io.ReaderAt` (`readAt(offset, length)`), `sizeofChars` the
byte size of an encoded name of a given character count, `readStringFrom`
the length-prefixed UTF-16 string decoder (returns the decoded string
and the unconsumed rest of the stream), `getNodeAt` the node resolver,
and `toLowerChar` Go's codepoint-wise `unicode.ToLower`.  All but `file`
are Modelled from the spec: their code is outside this component. -/
structure GgpkFS where
  file : Int → Nat → Except Nat (List Nat)
  sizeofChars : Nat → Nat
  readStringFrom : List Nat → Except Nat (String × List Nat)
  getNodeAt : Int → Except GError AnyNode
  toLowerChar : Char → Char

/-- The child-table parse loop of `newPdirNode`: `count` successive
12-byte little-endian (`Hash uint32`, `Offset int64`) entries; a
truncated entry fails with the index of the offending child
(`failed to read PDIR child %d`). -/
def readChildren : List Nat → Nat → Nat → Except GError (List PdirChild)
  | _, 0, _ => .ok []
  | bs, count + 1, i =>
    if bs.length < 12 then .error (.childError i)
    else
      match readChildren (bs.drop 12) count (i + 1) with
      | .error e => .error e
      | .ok rest => .ok (⟨toInt64 (le64 bs 4), le32 bs 0⟩ :: rest)

/-- `ggpkFS.newPdirNode(data, offset, length)`: the PDIR record decoder.
Checks the 40-byte header, validates the declared length arithmetic,
re-fetches the full record from the backing store when the supplied
buffer is shorter than the declared length, then parses name and
children.  Note the signature slice is taken from the original buffer
before any re-fetch, exactly as in the code. -/
def newPdirNode (g : GgpkFS) (data : List Nat) (offset : Int) (length : Nat) :
    Except GError PdirNode :=
  if data.length < 40 then .error .nodeTooShort
  else
    let nameLength := le32 data 0
    let childCount := le32 data 4
    let signature := (data.drop 8).take 32
    if length ≠ 40 + g.sizeofChars nameLength + 12 * childCount then .error .nodeTooShort
    else
      let fetched : Except GError (List Nat) :=
        if data.length < length then
          match g.file offset length with
          | .error e => .error (.ioError e)
          | .ok d => .ok d
        else .ok data
      match fetched with
      | .error e => .error e
      | .ok d =>
        match g.readStringFrom (d.drop 40) with
        | .error e => .error (.nameError e)
        | .ok (nm, rest) =>
          match readChildren rest childCount 0 with
          | .error e => .error e
          | .ok cs => .ok ⟨nm, signature, cs⟩

/-- The (offset, length) backing-store fetches performed by
`newPdirNode`: empty before the header checks pass, and the single
re-read `g.file.ReadAt(make([]byte, length), offset)` exactly when the
supplied buffer is shorter than the declared length. -/
def newPdirNodeFetches (g : GgpkFS) (data : List Nat) (offset : Int) (length : Nat) :
    List (Int × Nat) :=
  if data.length < 40 then []
  else if length ≠ 40 + g.sizeofChars (le32 data 0) + 12 * le32 data 4 then []
  else if data.length < length then [(offset, length)] else []

/-- The lookup hash of `pdirNode.ChildNamed`: MurmurHash2 with seed 0
over the little-endian UTF-16 bytes of the codepoint-wise lowercased
target name (`strings.ToLower`, then `utf16.Encode`, then per-unit
little-endian `binary.Write`). -/
def nameHash (g : GgpkFS) (name : String) : Nat :=
  murmur2 (utf16leBytes ((name.data.map g.toLowerChar).map Char.toNat)) 0

/-- The scan loop of `pdirNode.ChildNamed`: walk the children in stored
order; on a hash match resolve the node and confirm by exact name
equality; a resolution failure propagates; exhaustion yields
`fs.ErrNotExist`. -/
def scanChildren (g : GgpkFS) (h : Nat) (name : String) :
    List PdirChild → Except GError AnyNode
  | [] => .error .notExist
  | c :: rest =>
    if c.hash = h then
      match g.getNodeAt c.offset with
      | .error e => .error e
      | .ok cn => if cn.name = name then .ok cn else scanChildren g h name rest
    else scanChildren g h name rest

/-- `pdirNode.ChildNamed(name)`. -/
def ChildNamed (g : GgpkFS) (n : PdirNode) (name : String) : Except GError AnyNode :=
  scanChildren g (nameHash g name) name n.children

/-- The offsets at which the scan loop of `ChildNamed` invokes
`getNodeAt`, in call order: the access trace of the same loop as
`scanChildren`. -/
def scanChildrenAccesses (g : GgpkFS) (h : Nat) (name : String) :
    List PdirChild → List Int
  | [] => []
  | c :: rest =>
    if c.hash = h then
      match g.getNodeAt c.offset with
      | .error _ => [c.offset]
      | .ok cn =>
        if cn.name = name then [c.offset]
        else c.offset :: scanChildrenAccesses g h name rest
    else scanChildrenAccesses g h name rest

/-- The `getNodeAt` call trace of `pdirNode.ChildNamed(name)`. -/
def ChildNamedAccesses (g : GgpkFS) (n : PdirNode) (name : String) : List Int :=
  scanChildrenAccesses g (nameHash g name) name n.children

/-- The loop of `pdirNode.Children`: resolve each child reference in
stored order, aborting on the first failure. -/
def resolveAll (g : GgpkFS) : List PdirChild → Except GError (List AnyNode)
  | [] => .ok []
  | c :: rest =>
    match g.getNodeAt c.offset with
    | .error e => .error e
    | .ok a =>
      match resolveAll g rest with
      | .error e => .error e
      | .ok l => .ok (a :: l)

/-- `pdirNode.Children()`. -/
def Children (g : GgpkFS) (n : PdirNode) : Except GError (List AnyNode) :=
  resolveAll g n.children

/-- `fsPdirNode`: the `fs.File` adapter over a directory record, with
its mutable paging cursor `offset`. -/
structure FsPdirNode where
  node : PdirNode
  offset : Nat
deriving DecidableEq, Repr

/-- `pdirNode.Reader()`: a fresh adapter with cursor 0. -/
def Reader (n : PdirNode) : FsPdirNode := ⟨n, 0⟩

/-- `fsPdirNode.Read`: byte-reads on a directory always transfer 0
bytes and fail with `errNotFile`. -/
def FsPdirNode.Read (_ : FsPdirNode) (_ : List Nat) : Nat × Option GError :=
  (0, some .notFile)

/-- `fsDirEnt`: a directory entry wrapping a resolved node. -/
structure FsDirEnt where
  n : AnyNode
deriving DecidableEq, Repr

/-- `fsPdirNode.ReadDir(n)`: resolve all children, wrap them as
directory entries; `n <= 0` resets the cursor and returns the whole
list; otherwise slice at the cursor and either return `n` entries, or
the final batch together with `io.EOF` (the `Bool` component, `true`
when `io.EOF` is returned).  Returns the updated adapter state and the
result. -/
def ReadDir (g : GgpkFS) (fpn : FsPdirNode) (n : Int) :
    FsPdirNode × Except GError (List FsDirEnt × Bool) :=
  match Children g fpn.node with
  | .error e => (fpn, .error e)
  | .ok cs =>
    let dirents := cs.map (fun c => FsDirEnt.mk c)
    if n ≤ 0 then
      ({ fpn with offset := 0 }, .ok (dirents, false))
    else
      let rest := dirents.drop fpn.offset
      if (rest.length : Int) > n then
        ({ fpn with offset := fpn.offset + n.toNat }, .ok (rest.take n.toNat, false))
      else
        ({ fpn with offset := fpn.offset + rest.length }, .ok (rest, true))

/-- The adapter state after a finite sequence of `ReadDir` calls with
the given arguments. -/
def runReadDirSeq (g : GgpkFS) (f : FsPdirNode) : List Int → FsPdirNode
  | [] => f
  | n :: ns => runReadDirSeq g (ReadDir g f n).1 ns

/-- `fsPdirNodeStat`: the synthetic `fs.FileInfo` of a directory. -/
structure FsPdirNodeStat where
  fpn : FsPdirNode
deriving DecidableEq, Repr

/-- `fsPdirNode.Stat()`. -/
def Stat (fpn : FsPdirNode) : FsPdirNodeStat := ⟨fpn⟩

/-- `fsPdirNodeStat.Size()`. -/
def FsPdirNodeStat.size (_ : FsPdirNodeStat) : Int := 0

/-- `fs.ModeDir`, the directory bit of `fs.FileMode`. -/
def modeDir : Nat := 2147483648

/-- `fsPdirNodeStat.Mode()`: `0o444 | fs.ModeDir`. -/
def FsPdirNodeStat.mode (_ : FsPdirNodeStat) : Nat := 292 ||| modeDir

/-- `fsPdirNodeStat.ModTime()`: `time.Unix(0, 0)`, as (seconds, nanos). -/
def FsPdirNodeStat.modTime (_ : FsPdirNodeStat) : Int × Int := (0, 0)

/-- `fsPdirNodeStat.IsDir()`. -/
def FsPdirNodeStat.isDir (_ : FsPdirNodeStat) : Bool := true

/-- `fsPdirNodeStat.Name()`. -/
def FsPdirNodeStat.statName (s : FsPdirNodeStat) : String := s.fpn.node.name

/-- `fsPdirNodeStat.Signature()`: the 32-byte signature blob. -/
def FsPdirNodeStat.signatureBlob (s : FsPdirNodeStat) : List Nat := s.fpn.node.signature

/-! Concrete environments and records used to instantiate the theorems
below on closed inputs. -/

/-- A 40-byte header: name length 0, child count 1, zero signature. -/
def hdr1 : List Nat :=
  [0, 0, 0, 0, 1, 0, 0, 0,
   0, 0, 0, 0, 0, 0, 0, 0, 0, 0, 0, 0, 0, 0, 0, 0,
   0, 0, 0, 0, 0, 0, 0, 0, 0, 0, 0, 0, 0, 0, 0, 0]

/-- The full 52-byte record: header plus one zero child entry. -/
def full1 : List Nat := hdr1 ++ [0, 0, 0, 0, 0, 0, 0, 0, 0, 0, 0, 0]

/-- A backing store holding `full1`, with trivial collaborators. -/
def gC : GgpkFS := {
  file := fun _ _ => .ok full1
  sizeofChars := fun _ => 0
  readStringFrom := fun bs => .ok ("", bs)
  getNodeAt := fun o =>
    if o = 1 then .ok (.file "a") else if o = 2 then .ok (.file "b") else .error .notExist
  toLowerChar := id }

/-- Map a child offset to a single-letter file name. -/
def nameOf (o : Int) : String :=
  if o = 1 then "A" else if o = 2 then "B" else if o = 3 then "C"
  else if o = 4 then "D" else if o = 5 then "E" else "Z"

/-- A store resolving every offset to a leaf named by `nameOf`. -/
def gAcc : GgpkFS := {
  file := fun _ _ => .error 0
  sizeofChars := fun _ => 0
  readStringFrom := fun bs => .ok ("", bs)
  getNodeAt := fun o => .ok (.file (nameOf o))
  toLowerChar := id }

/-- A directory record with five children A..E. -/
def node5 : PdirNode :=
  ⟨"d", [], [⟨1, 0⟩, ⟨2, 0⟩, ⟨3, 0⟩, ⟨4, 0⟩, ⟨5, 0⟩]⟩

/-- A directory record with one child A. -/
def node1 : PdirNode := ⟨"d", [], [⟨1, 0⟩]⟩

/-! Helper lemmas. -/

/-- The child-table parser never reports `nodeTooShort`; its only
failure is an indexed `childError`. -/
lemma readChildren_ne_nodeTooShort (bs : List Nat) (count i : Nat) :
    readChildren bs count i ≠ Except.error GError.nodeTooShort := by
  induction count generalizing bs i with
  | zero => simp [readChildren]
  | succ c ih =>
    simp only [readChildren]
    split
    · simp
    · cases hr : readChildren (bs.drop 12) c (i + 1) with
      | error e =>
        have he := ih (bs.drop 12) (i + 1)
        rw [hr] at he
        simpa using he
      | ok rest => simp

/-- Claim C5: `newPdirNode` fails with `errNodeTooShort` on a buffer
shorter than the 40-byte header, fails with `errNodeTooShort` whenever
the declared length differs from
`40 + sizeofChars(nameLength) + 12*childCount` (header fields read as
little-endian `uint32` at bytes 0–3 and 4–7), and proceeds past these
checks (never again reporting `errNodeTooShort`) exactly when both
hold. -/
theorem newPdirNode_header_checks (g : GgpkFS) (data : List Nat) (offset : Int) (length : Nat) :
    (data.length < 40 → newPdirNode g data offset length = .error .nodeTooShort)
    ∧ (40 ≤ data.length →
        length ≠ 40 + g.sizeofChars (le32 data 0) + 12 * le32 data 4 →
        newPdirNode g data offset length = .error .nodeTooShort)
    ∧ (40 ≤ data.length →
        length = 40 + g.sizeofChars (le32 data 0) + 12 * le32 data 4 →
        newPdirNode g data offset length ≠ .error .nodeTooShort) := by
  refine ⟨fun h => by simp [newPdirNode, h], fun h40 hne => ?_, fun h40 heq => ?_⟩
  · have h1 : ¬ data.length < 40 := by omega
    simp [newPdirNode, h1, hne]
  · have h1 : ¬ data.length < 40 := by omega
    simp only [newPdirNode, if_neg h1, if_neg (not_not_intro heq)]
    split
    next e hes =>
      split at hes
      · split at hes
        next c hfc => simp at hes; simp [← hes]
        next => simp at hes
      · simp at hes
    next d hds =>
      split
      next e hse => simp
      next nm rest hse =>
        split
        next e hce =>
          intro hc
          injection hc with hc
          subst hc
          exact readChildren_ne_nodeTooShort _ _ _ hce
        next => simp

/-- Witness for C5: a 4-byte buffer is too short; a correct 40-byte
header with declared length 999 fails the arithmetic check; the valid
52-byte record passes both checks. -/
theorem newPdirNode_header_checks_witness :
    newPdirNode gC [0, 0, 0, 0] 0 52 = .error .nodeTooShort
    ∧ newPdirNode gC hdr1 0 999 = .error .nodeTooShort
    ∧ newPdirNode gC full1 0 52 ≠ .error .nodeTooShort :=
  ⟨(newPdirNode_header_checks gC [0, 0, 0, 0] 0 52).1 (by decide),
   (newPdirNode_header_checks gC hdr1 0 999).2.1 (by decide) (by decide),
   (newPdirNode_header_checks gC full1 0 52).2.2 (by decide) (by decide)⟩

/-- A byte of an extended buffer agrees with the original within its
length. -/
lemma byteAt_append (data t : List Nat) (i : Nat) (h : i < data.length) :
    byteAt (data ++ t) i = byteAt data i :=
  List.getD_append data t 0 i h

/-- A 32-bit little-endian load within the original buffer is unchanged
by extending the buffer. -/
lemma le32_append (data t : List Nat) (i : Nat) (h : i + 3 < data.length) :
    le32 (data ++ t) i = le32 data i := by
  unfold le32
  rw [byteAt_append _ _ _ (by omega), byteAt_append _ _ _ (by omega),
    byteAt_append _ _ _ (by omega), byteAt_append _ _ _ (by omega)]

/-- The 32-byte signature slice `data[8:40]` is unchanged by extending
the buffer past 40 bytes. -/
lemma sig_append (data t : List Nat) (h : 40 ≤ data.length) :
    ((data ++ t).drop 8).take 32 = (data.drop 8).take 32 := by
  rw [List.drop_append_of_le_length (by omega),
    List.take_append_of_le_length (by simp; omega)]

/-- Claim C3: with a 40-byte-or-longer initial buffer that is a prefix
of the true record bytes but shorter than the declared length, and a
declared length passing the header arithmetic, `newPdirNode` performs
exactly one backing-store fetch, at the original offset and of exactly
the declared length; if that fetch returns the full record the result
equals decoding the full buffer up front (which itself performs no
fetch), and if it fails with cause `e` the decode fails with
`ioError e` wrapping it. -/
theorem newPdirNode_refetch (g : GgpkFS) (data full : List Nat) (offset : Int) (length : Nat)
    (h40 : 40 ≤ data.length) (hpre : data <+: full) (hlt : data.length < length)
    (hchk : length = 40 + g.sizeofChars (le32 data 0) + 12 * le32 data 4)
    (hfull : full.length = length) :
    (g.file offset length = .ok full →
      newPdirNode g data offset length = newPdirNode g full offset length)
    ∧ (∀ e, g.file offset length = .error e →
      newPdirNode g data offset length = .error (.ioError e))
    ∧ newPdirNodeFetches g data offset length = [(offset, length)]
    ∧ newPdirNodeFetches g full offset length = [] := by
  obtain ⟨t, rfl⟩ := hpre
  have hl0 : le32 (data ++ t) 0 = le32 data 0 := le32_append _ _ _ (by omega)
  have hl4 : le32 (data ++ t) 4 = le32 data 4 := le32_append _ _ _ (by omega)
  have hsig : ((data ++ t).drop 8).take 32 = (data.drop 8).take 32 := sig_append _ _ h40
  have hn1 : ¬ data.length < 40 := by omega
  have hn2 : ¬ (data ++ t).length < 40 := by
    rw [List.length_append]; omega
  have hn3 : ¬ (data ++ t).length < length := by
    rw [hfull]; omega
  refine ⟨fun hfile => ?_, fun e hfile => ?_, ?_, ?_⟩
  · simp only [newPdirNode, if_neg hn1, if_neg hn2, hl0, hl4,
      if_neg (not_not_intro hchk), if_pos hlt, if_neg hn3, hfile, hsig]
  · simp only [newPdirNode, if_neg hn1, if_neg (not_not_intro hchk), if_pos hlt, hfile]
  · simp only [newPdirNodeFetches, if_neg hn1, if_neg (not_not_intro hchk), if_pos hlt]
  · simp only [newPdirNodeFetches, if_neg hn2, hl0, hl4,
      if_neg (not_not_intro hchk), if_neg hn3]

/-- Witness for C3: decoding the truncated 40-byte buffer `hdr1` of the
52-byte record `full1` fetches (7, 52) once and agrees with decoding
`full1` directly, which fetches nothing. -/
theorem newPdirNode_refetch_witness :
    newPdirNode gC hdr1 7 52 = newPdirNode gC full1 7 52
    ∧ newPdirNodeFetches gC hdr1 7 52 = [(7, 52)]
    ∧ newPdirNodeFetches gC full1 7 52 = [] :=
  have H := newPdirNode_refetch gC hdr1 full1 7 52 (by decide) ⟨_, rfl⟩ (by decide)
    (by decide) (by decide)
  ⟨H.1 rfl, H.2.2.1, H.2.2.2⟩

/-- If some child resolves to a node with exactly the target name, its
stored hash matches, and every hash-matching child before it resolves
to a node with a different name, the scan returns that node. -/
lemma scanChildren_found (g : GgpkFS) (h : Nat) (name : String) :
    ∀ (pre : List PdirChild) (c : PdirChild) (post : List PdirChild) (cn : AnyNode),
      c.hash = h → g.getNodeAt c.offset = .ok cn → cn.name = name →
      (∀ c' ∈ pre, c'.hash = h → ∃ r, g.getNodeAt c'.offset = .ok r ∧ r.name ≠ name) →
      scanChildren g h name (pre ++ c :: post) = .ok cn := by
  intro pre
  induction pre with
  | nil =>
    intro c post cn hh hres hname _
    simp [scanChildren, hh, hres, hname]
  | cons a as ih =>
    intro c post cn hh hres hname hpre
    by_cases ha : a.hash = h
    · obtain ⟨r, hr, hrn⟩ := hpre a (by simp) ha
      simp only [List.cons_append, scanChildren, if_pos ha, hr, if_neg hrn]
      exact ih c post cn hh hres hname (fun c' hc' => hpre c' (by simp [hc']))
    · simp only [List.cons_append, scanChildren, if_neg ha]
      exact ih c post cn hh hres hname (fun c' hc' => hpre c' (by simp [hc']))

/-- If every hash-matching child resolves to a node with a different
name, the scan returns `fs.ErrNotExist`. -/
lemma scanChildren_miss (g : GgpkFS) (h : Nat) (name : String) :
    ∀ cs : List PdirChild,
      (∀ c ∈ cs, c.hash = h → ∃ r, g.getNodeAt c.offset = .ok r ∧ r.name ≠ name) →
      scanChildren g h name cs = .error .notExist := by
  intro cs
  induction cs with
  | nil => intro _; simp [scanChildren]
  | cons a as ih =>
    intro hall
    by_cases ha : a.hash = h
    · obtain ⟨r, hr, hrn⟩ := hall a (by simp) ha
      simp only [scanChildren, if_pos ha, hr, if_neg hrn]
      exact ih (fun c' hc' => hall c' (by simp [hc']))
    · simp only [scanChildren, if_neg ha]
      exact ih (fun c' hc' => hall c' (by simp [hc']))

/-- Every offset in the scan's access trace belongs to a stored child
whose hash matches the lookup hash. -/
lemma scanChildrenAccesses_sub (g : GgpkFS) (h : Nat) (name : String) :
    ∀ cs : List PdirChild, ∀ o ∈ scanChildrenAccesses g h name cs,
      ∃ c, c ∈ cs ∧ c.offset = o ∧ c.hash = h := by
  intro cs
  induction cs with
  | nil => simp [scanChildrenAccesses]
  | cons a as ih =>
    intro o ho
    by_cases ha : a.hash = h
    · cases hr : g.getNodeAt a.offset with
      | error e =>
        simp only [scanChildrenAccesses, if_pos ha, hr, List.mem_singleton] at ho
        exact ⟨a, by simp, ho.symm, ha⟩
      | ok cn =>
        by_cases hn : cn.name = name
        · simp only [scanChildrenAccesses, if_pos ha, hr, if_pos hn,
            List.mem_singleton] at ho
          exact ⟨a, by simp, ho.symm, ha⟩
        · simp only [scanChildrenAccesses, if_pos ha, hr, if_neg hn,
            List.mem_cons] at ho
          rcases ho with rfl | ho
          · exact ⟨a, by simp, rfl, ha⟩
          · obtain ⟨c, hc, hco, hch⟩ := ih o ho
            exact ⟨c, by simp [hc], hco, hch⟩
    · simp only [scanChildrenAccesses, if_neg ha] at ho
      obtain ⟨c, hc, hco, hch⟩ := ih o ho
      exact ⟨c, by simp [hc], hco, hch⟩

/-- Claim C2: `ChildNamed` hashes the lowercased, UTF-16LE-encoded
target with MurmurHash2 seed 0 (`nameHash`), scans the children in
stored order, resolves only hash-matching entries (the access trace
contains only hash-matching child offsets), and returns the first
resolved child whose exact name equals the target; if every
hash-matching candidate (possibly none) resolves to a different name it
returns `fs.ErrNotExist`.  In particular two children with equal stored
hashes but different names are each found by their exact name. -/
theorem ChildNamed_lookup (g : GgpkFS) (n : PdirNode) (name : String) :
    (∀ pre c post cn, n.children = pre ++ c :: post →
      c.hash = nameHash g name → g.getNodeAt c.offset = .ok cn → cn.name = name →
      (∀ c' ∈ pre, c'.hash = nameHash g name →
        ∃ r, g.getNodeAt c'.offset = .ok r ∧ r.name ≠ name) →
      ChildNamed g n name = .ok cn)
    ∧ ((∀ c ∈ n.children, c.hash = nameHash g name →
        ∃ r, g.getNodeAt c.offset = .ok r ∧ r.name ≠ name) →
      ChildNamed g n name = .error .notExist)
    ∧ (∀ o ∈ ChildNamedAccesses g n name,
        ∃ c, c ∈ n.children ∧ c.offset = o ∧ c.hash = nameHash g name) := by
  refine ⟨fun pre c post cn hsplit hh hres hname hpre => ?_, fun hall => ?_, fun o ho => ?_⟩
  · rw [ChildNamed, hsplit]
    exact scanChildren_found g (nameHash g name) name pre c post cn hh hres hname hpre
  · rw [ChildNamed]
    exact scanChildren_miss g (nameHash g name) name n.children hall
  · exact scanChildrenAccesses_sub g (nameHash g name) name n.children o ho

/-- A record whose two children carry the same stored hash (the hash of
"b") but resolve to the differently-named leaves "a" and "b". -/
def nodeCollide : PdirNode :=
  ⟨"d", [], [⟨1, nameHash gC "b"⟩, ⟨2, nameHash gC "b"⟩]⟩

/-- A record with a single child whose stored hash collides with the
hash of "b" but which resolves to the leaf named "a". -/
def nodeMiss : PdirNode := ⟨"d", [], [⟨1, nameHash gC "b"⟩]⟩

/-- Witness for C2: under the collision the lookup of "b" skips the
hash-matching child named "a" and returns the child named "b"; and in
`nodeMiss`, where the only hash-matching candidate is named "a", the
lookup of "b" returns `fs.ErrNotExist`. -/
theorem ChildNamed_lookup_witness :
    ChildNamed gC nodeCollide "b" = .ok (.file "b")
    ∧ ChildNamed gC nodeMiss "b" = .error .notExist :=
  ⟨(ChildNamed_lookup gC nodeCollide "b").1
      [⟨1, nameHash gC "b"⟩] ⟨2, nameHash gC "b"⟩ [] (.file "b") rfl rfl rfl rfl
      (by intro c' hc' _
          rw [List.mem_singleton] at hc'
          subst hc'
          exact ⟨.file "a", rfl, by decide⟩),
   (ChildNamed_lookup gC nodeMiss "b").2.1
      (by intro c hc _
          simp only [nodeMiss, List.mem_singleton] at hc
          subst hc
          exact ⟨.file "a", rfl, by decide⟩)⟩

/-- If no stored child hash matches the lookup hash, the scan neither
resolves anything nor returns a node. -/
lemma scanChildren_noMatch (g : GgpkFS) (h : Nat) (name : String) :
    ∀ cs : List PdirChild, (∀ c ∈ cs, c.hash ≠ h) →
      scanChildren g h name cs = .error .notExist
      ∧ scanChildrenAccesses g h name cs = [] := by
  intro cs
  induction cs with
  | nil => intro _; exact ⟨by simp [scanChildren], by simp [scanChildrenAccesses]⟩
  | cons a as ih =>
    intro hall
    have ha : ¬ a.hash = h := hall a (by simp)
    have hrest := ih (fun c hc => hall c (by simp [hc]))
    exact ⟨by simp only [scanChildren, if_neg ha]; exact hrest.1,
      by simp only [scanChildrenAccesses, if_neg ha]; exact hrest.2⟩

/-- Claim C7: when the computed lookup hash matches no stored child
hash, `ChildNamed` returns `fs.ErrNotExist` and its `getNodeAt` access
trace is empty — no backing-store resolution happens. -/
theorem ChildNamed_noHashMatch (g : GgpkFS) (n : PdirNode) (name : String)
    (h : ∀ c ∈ n.children, c.hash ≠ nameHash g name) :
    ChildNamed g n name = .error .notExist ∧ ChildNamedAccesses g n name = [] :=
  scanChildren_noMatch g (nameHash g name) name n.children h

/-- A record with one child stored under the hash of "a". -/
def nodeA : PdirNode := ⟨"d", [], [⟨1, nameHash gC "a"⟩]⟩

/-- Witness for C7: looking up "b" in a record whose only child is
hashed for "a" resolves nothing and misses. -/
theorem ChildNamed_noHashMatch_witness :
    ChildNamed gC nodeA "b" = .error .notExist ∧ ChildNamedAccesses gC nodeA "b" = [] :=
  ChildNamed_noHashMatch gC nodeA "b"
    (by intro c hc
        simp only [nodeA, List.mem_singleton] at hc
        subst hc
        decide)

/-- The resolution loop succeeds with `l` exactly when `getNodeAt`
resolves each child reference, position by position in stored order,
to the corresponding element of `l`. -/
lemma resolveAll_ok_iff (g : GgpkFS) :
    ∀ (cs : List PdirChild) (l : List AnyNode),
      resolveAll g cs = .ok l ↔
        List.Forall₂ (fun c a => g.getNodeAt c.offset = .ok a) cs l := by
  intro cs
  induction cs with
  | nil =>
    intro l
    constructor
    · intro h
      simp only [resolveAll] at h
      injection h with h
      subst h
      exact .nil
    · intro h
      cases h
      simp [resolveAll]
  | cons c rest ih =>
    intro l
    constructor
    · intro h
      simp only [resolveAll] at h
      cases hr : g.getNodeAt c.offset with
      | error e => rw [hr] at h; simp at h
      | ok a =>
        rw [hr] at h
        cases hrest : resolveAll g rest with
        | error e => rw [hrest] at h; simp at h
        | ok tl =>
          rw [hrest] at h
          simp only [Except.ok.injEq] at h
          subst h
          exact .cons hr ((ih tl).mp hrest)
    · intro h
      cases h with
      | cons h1 h2 =>
        have := (ih _).mpr h2
        simp [resolveAll, h1, this]

/-- The resolution loop fails with the error of the first failing
child, provided every earlier child resolves. -/
lemma resolveAll_error (g : GgpkFS) :
    ∀ (pre : List PdirChild) (c : PdirChild) (post : List PdirChild) (e : GError),
      (∀ c' ∈ pre, ∃ a, g.getNodeAt c'.offset = .ok a) →
      g.getNodeAt c.offset = .error e →
      resolveAll g (pre ++ c :: post) = .error e := by
  intro pre
  induction pre with
  | nil =>
    intro c post e _ hc
    simp [resolveAll, hc]
  | cons a as ih =>
    intro c post e hpre hc
    obtain ⟨b, hb⟩ := hpre a (by simp)
    have htl := ih c post e (fun c' hc' => hpre c' (by simp [hc'])) hc
    simp [resolveAll, hb, htl]

/-- Claim C6: `Children` succeeds exactly when every child reference
resolves, returning the resolved nodes pointwise in the stored on-disk
order (`Forall₂` forces equal lengths and positionwise resolution); and
it fails with the error of the first failing child, returning no
partial listing. -/
theorem Children_spec (g : GgpkFS) (n : PdirNode) :
    (∀ l, Children g n = .ok l ↔
      List.Forall₂ (fun c a => g.getNodeAt c.offset = .ok a) n.children l)
    ∧ (∀ pre c post e, n.children = pre ++ c :: post →
      (∀ c' ∈ pre, ∃ a, g.getNodeAt c'.offset = .ok a) →
      g.getNodeAt c.offset = .error e →
      Children g n = .error e) :=
  ⟨fun l => resolveAll_ok_iff g n.children l,
   fun pre c post e hsplit hpre hc => by
     rw [Children, hsplit]
     exact resolveAll_error g pre c post e hpre hc⟩

/-- A record with two resolvable children. -/
def nodeAB : PdirNode := ⟨"d", [], [⟨1, 0⟩, ⟨2, 0⟩]⟩

/-- A record whose second child reference fails to resolve under `gC`. -/
def nodeBad : PdirNode := ⟨"d", [], [⟨1, 0⟩, ⟨9, 0⟩]⟩

/-- Witness for C6: both children of `nodeAB` resolve in stored order;
the unresolvable second child of `nodeBad` aborts the whole listing. -/
theorem Children_spec_witness :
    Children gC nodeAB = .ok [.file "a", .file "b"]
    ∧ Children gC nodeBad = .error .notExist :=
  ⟨((Children_spec gC nodeAB).1 _).mpr (.cons rfl (.cons rfl .nil)),
   (Children_spec gC nodeBad).2 [⟨1, 0⟩] ⟨9, 0⟩ [] .notExist rfl
     (by intro c' hc'
         rw [List.mem_singleton] at hc'
         subst hc'
         exact ⟨.file "a", rfl⟩)
     rfl⟩

/-- Counterexample for C1: after paging two entries (cursor at 2) over
the five-child directory `node5`, `ReadDir` with count 0 returns all
five entries, not the three remaining from the cursor, while still
resetting the cursor to 0. -/
theorem ReadDir_resetAll_cex :
    ReadDir gAcc ((ReadDir gAcc (Reader node5) 2).1) 0 =
      (⟨node5, 0⟩, .ok ([⟨.file "A"⟩, ⟨.file "B"⟩, ⟨.file "C"⟩, ⟨.file "D"⟩, ⟨.file "E"⟩],
        false))
    ∧ (ReadDir gAcc (Reader node5) 2).1.offset = 2
    ∧ ((ReadDir gAcc ((ReadDir gAcc (Reader node5) 2).1) 0).2 ≠
        .ok ([⟨.file "C"⟩, ⟨.file "D"⟩, ⟨.file "E"⟩], false)) := by
  refine ⟨rfl, rfl, fun h => ?_⟩
  have h' : (Except.ok ([(⟨AnyNode.file "A"⟩ : FsDirEnt), ⟨.file "B"⟩, ⟨.file "C"⟩,
      ⟨.file "D"⟩, ⟨.file "E"⟩], false) : Except GError (List FsDirEnt × Bool)) =
      .ok ([⟨.file "C"⟩, ⟨.file "D"⟩, ⟨.file "E"⟩], false) := h
  simp at h'

/-- Claim C1 (amended): `ReadDir` with `maxCount <= 0` returns ALL
entries of the directory from the beginning, in stored order,
regardless of the current cursor position, resets the cursor to 0, and
signals neither end-of-sequence nor an error when all resolutions
succeed. -/
theorem ReadDir_nonpositive (g : GgpkFS) (fpn : FsPdirNode) (n : Int) (l : List AnyNode)
    (hn : n ≤ 0) (hok : Children g fpn.node = .ok l) :
    ReadDir g fpn n = (⟨fpn.node, 0⟩, .ok (l.map FsDirEnt.mk, false)) := by
  simp [ReadDir, hok, hn]

/-- Witness for C1 (amended): from cursor 2 over `node5`, count 0
returns all five entries and resets the cursor. -/
theorem ReadDir_nonpositive_witness :
    ReadDir gAcc ⟨node5, 2⟩ 0 =
      (⟨node5, 0⟩,
        .ok ([⟨.file "A"⟩, ⟨.file "B"⟩, ⟨.file "C"⟩, ⟨.file "D"⟩, ⟨.file "E"⟩], false)) :=
  ReadDir_nonpositive gAcc ⟨node5, 2⟩ 0
    [.file "A", .file "B", .file "C", .file "D", .file "E"] (by decide) rfl

/-- Counterexample for C4: over the single-child directory `node1`,
`ReadDir 1` has exactly `maxCount` entries remaining (`r = n = 1`), yet
returns the entry together with the `io.EOF` end-of-sequence signal,
contradicting the claim that `r >= n` yields no such signal. -/
theorem ReadDir_boundary_cex :
    (ReadDir gAcc (Reader node1) 1).2 = .ok ([⟨.file "A"⟩], true)
    ∧ (ReadDir gAcc (Reader node1) 1).2 ≠ .ok ([⟨.file "A"⟩], false) := by
  refine ⟨rfl, fun h => ?_⟩
  have h' : (Except.ok ([(⟨AnyNode.file "A"⟩ : FsDirEnt)], true) :
      Except GError (List FsDirEnt × Bool)) = .ok ([⟨.file "A"⟩], false) := h
  simp at h'

/-- Claim C4 (amended): with `maxCount = n > 0` and `r` entries
remaining at the cursor, if `r > n` then `ReadDir` advances the cursor
by `n` and returns exactly `n` entries with no end-of-sequence signal,
and if `r <= n` (including the boundary `r = n`) it advances the cursor
to the end and returns all `r` remaining entries (possibly zero)
together with the `io.EOF` end-of-sequence signal; on children
[A,B,C,D,E], three successive `ReadDir 2` calls yield [A,B], [C,D], [E]
with the signal only on the third call (see the witness). -/
theorem ReadDir_paging (g : GgpkFS) (fpn : FsPdirNode) (n : Int) (l : List AnyNode)
    (hok : Children g fpn.node = .ok l) (hn : 0 < n) :
    (((l.map FsDirEnt.mk).drop fpn.offset).length > n.toNat →
      ReadDir g fpn n = (⟨fpn.node, fpn.offset + n.toNat⟩,
        .ok (((l.map FsDirEnt.mk).drop fpn.offset).take n.toNat, false)))
    ∧ (((l.map FsDirEnt.mk).drop fpn.offset).length ≤ n.toNat →
      ReadDir g fpn n = (⟨fpn.node, fpn.offset + ((l.map FsDirEnt.mk).drop fpn.offset).length⟩,
        .ok ((l.map FsDirEnt.mk).drop fpn.offset, true))) := by
  have hn' : ¬ n ≤ 0 := by omega
  constructor
  · intro hgt
    have hc : ((((l.map FsDirEnt.mk).drop fpn.offset).length : Int) > n) := by omega
    simp only [ReadDir, hok, if_neg hn', if_pos hc]
  · intro hle
    have hc : ¬ ((((l.map FsDirEnt.mk).drop fpn.offset).length : Int) > n) := by omega
    simp only [ReadDir, hok, if_neg hn', if_neg hc]

/-- Witness for C4 (amended): the paging example over `node5`: three
successive `ReadDir 2` calls from cursors 0, 2, 4 yield [A,B], [C,D],
[E], with `io.EOF` only on the third. -/
theorem ReadDir_paging_witness :
    (ReadDir gAcc (Reader node5) 2).2 = .ok ([⟨.file "A"⟩, ⟨.file "B"⟩], false)
    ∧ (ReadDir gAcc ⟨node5, 2⟩ 2).2 = .ok ([⟨.file "C"⟩, ⟨.file "D"⟩], false)
    ∧ (ReadDir gAcc ⟨node5, 4⟩ 2).2 = .ok ([⟨.file "E"⟩], true) :=
  ⟨congrArg Prod.snd ((ReadDir_paging gAcc (Reader node5) 2
      [.file "A", .file "B", .file "C", .file "D", .file "E"] rfl (by decide)).1 (by decide)),
   congrArg Prod.snd ((ReadDir_paging gAcc ⟨node5, 2⟩ 2
      [.file "A", .file "B", .file "C", .file "D", .file "E"] rfl (by decide)).1 (by decide)),
   congrArg Prod.snd ((ReadDir_paging gAcc ⟨node5, 4⟩ 2
      [.file "A", .file "B", .file "C", .file "D", .file "E"] rfl (by decide)).2 (by decide))⟩

/-- Claim C8: a byte-read on any directory adapter (any cursor state,
any buffer, including over an empty directory) transfers zero bytes and
fails with `errNotFile`. -/
theorem Read_notAFile : ∀ (fpn : FsPdirNode) (buf : List Nat),
    FsPdirNode.Read fpn buf = (0, some GError.notFile) :=
  fun _ _ => rfl

/-- A successful listing has exactly one node per stored child. -/
lemma Children_ok_length (g : GgpkFS) (n : PdirNode) (l : List AnyNode)
    (h : Children g n = .ok l) : l.length = n.children.length :=
  (List.Forall₂.length_eq ((resolveAll_ok_iff g n.children l).mp h)).symm

/-- One `ReadDir` call preserves the directory record and keeps the
cursor within `[0, #children]`. -/
lemma ReadDir_offset_le (g : GgpkFS) (f : FsPdirNode) (n : Int)
    (h : f.offset ≤ f.node.children.length) :
    (ReadDir g f n).1.offset ≤ (ReadDir g f n).1.node.children.length
    ∧ (ReadDir g f n).1.node = f.node := by
  cases hc : Children g f.node with
  | error e =>
    simp only [ReadDir, hc]
    exact ⟨h, trivial⟩
  | ok l =>
    have hlen : l.length = f.node.children.length := Children_ok_length g f.node l hc
    by_cases hn : n ≤ 0
    · simp only [ReadDir, hc, if_pos hn]
      exact ⟨Nat.zero_le _, trivial⟩
    · by_cases hgt : (((l.map FsDirEnt.mk).drop f.offset).length : Int) > n
      · simp only [ReadDir, hc, if_neg hn, if_pos hgt]
        refine ⟨?_, trivial⟩
        simp only [List.length_drop, List.length_map] at hgt ⊢
        omega
      · simp only [ReadDir, hc, if_neg hn, if_neg hgt]
        refine ⟨?_, trivial⟩
        simp only [List.length_drop, List.length_map] at hgt ⊢
        omega

/-- Claim C10: starting from a fresh adapter (cursor 0) over a fixed
record, after any finite sequence of `ReadDir` calls with arbitrary
arguments the record is unchanged and the cursor satisfies
`0 <= offset <= #children` (it is a `Nat`, hence nonnegative), so the
slice `dirents[offset:]` taken inside `ReadDir` is always in bounds. -/
theorem ReadDir_cursor_invariant (g : GgpkFS) (node : PdirNode) (ns : List Int) :
    (runReadDirSeq g (Reader node) ns).offset ≤
      (runReadDirSeq g (Reader node) ns).node.children.length
    ∧ (runReadDirSeq g (Reader node) ns).node = node := by
  suffices H : ∀ f : FsPdirNode, f.offset ≤ f.node.children.length →
      (runReadDirSeq g f ns).offset ≤ (runReadDirSeq g f ns).node.children.length
      ∧ (runReadDirSeq g f ns).node = f.node by
    exact H (Reader node) (Nat.zero_le _)
  induction ns with
  | nil => intro f hf; exact ⟨hf, rfl⟩
  | cons n ns ih =>
    intro f hf
    have step := ReadDir_offset_le g f n hf
    have rec := ih (ReadDir g f n).1 step.1
    exact ⟨rec.1, rec.2.trans step.2⟩

/-- Claim C9: the synthetic metadata of any directory adapter reports
size 0, modification time `time.Unix(0, 0)`, `IsDir() = true`, and mode
`0o444 | fs.ModeDir`, regardless of child count; and it exposes as
`Signature()` the 32-byte blob `data[8:40]` decoded from the record
header of any successfully decoded record. -/
theorem Stat_synthetic :
    (∀ fpn : FsPdirNode,
      (Stat fpn).size = 0 ∧ (Stat fpn).modTime = (0, 0) ∧ (Stat fpn).isDir = true
      ∧ (Stat fpn).mode = 292 ||| modeDir
      ∧ (Stat fpn).signatureBlob = fpn.node.signature)
    ∧ (∀ (g : GgpkFS) (data : List Nat) (offset : Int) (length : Nat) (nd : PdirNode),
      newPdirNode g data offset length = .ok nd →
      (Stat (Reader nd)).signatureBlob = (data.drop 8).take 32
      ∧ ((Stat (Reader nd)).signatureBlob).length = 32) := by
  refine ⟨fun fpn => ⟨rfl, rfl, rfl, rfl, rfl⟩,
    fun g data offset length nd hdec => ?_⟩
  by_cases h40 : data.length < 40
  · simp [newPdirNode, h40] at hdec
  · simp only [newPdirNode, if_neg h40] at hdec
    split at hdec
    · simp at hdec
    · split at hdec
      next e hes => simp at hdec
      next d hds =>
        split at hdec
        next e hse => simp at hdec
        next nm rest hse =>
          split at hdec
          next e hce => simp at hdec
          next cs hcs =>
            simp only [Except.ok.injEq] at hdec
            subst hdec
            refine ⟨rfl, ?_⟩
            show ((data.drop 8).take 32).length = 32
            rw [List.length_take, List.length_drop]
            omega

/-- The record decoded from `full1`: empty name, the 32-byte zero
signature, one zero child. -/
def nd1 : PdirNode := ⟨"", (full1.drop 8).take 32, [⟨0, 0⟩]⟩

/-- Witness for C9: the metadata of the adapter over the record decoded
from `full1`. -/
theorem Stat_synthetic_witness :
    (Stat (Reader nd1)).size = 0
    ∧ (Stat (Reader nd1)).modTime = (0, 0)
    ∧ (Stat (Reader nd1)).isDir = true
    ∧ (Stat (Reader nd1)).mode = 292 ||| modeDir
    ∧ (Stat (Reader nd1)).signatureBlob = (full1.drop 8).take 32
    ∧ ((Stat (Reader nd1)).signatureBlob).length = 32 :=
  have H1 := Stat_synthetic.1 (Reader nd1)
  have H2 := Stat_synthetic.2 gC full1 0 52 nd1 rfl
  ⟨H1.1, H1.2.1, H1.2.2.1, H1.2.2.2.1, H2.1, H2.2⟩

end Pogo
